import Mathlib

/-!
Shallow embedding of the Blackjack game core from `src/main.rs`.

The embedding is purely functional:
  * `Card`, `Deck.new`, `Deck.deal_card` model the Rust `Card` / `Deck`
    types; the deck is the `cards` vector and `deal_card` pops the last
    element (`Vec::pop`).  Popping from the empty deck is the fatal
    "The deck is empty!" condition; it is modelled as `Err.emptyDeck`.
  * `Hand` is the `cards` vector of the Rust `Hand`; `Hand.add` pushes.
  * `Hand.calculate_hand_total` is a direct transcription of the Rust
    scoring loop: a fold accumulating `(total, ace_count)` followed by
    the `while total > 21 && ace_count > 0` adjustment loop
    (`adjustAces`, structurally recursive on `ace_count`).
  * `GameController.player_turn` consumes a finite list of raw input
    strings (the stream of lines read from stdin); running out of
    inputs is modelled as `Err.outOfInputs` (the real program would
    block forever waiting for input, which has no counterpart in a
    terminating model).
  * `GameController.dealer_turn` is the dealer `while` loop, recursing
    on the shrinking deck.
  * `GameController.run` composes the phases exactly as the Rust
    `run` does: `deal_initial_hands`, `player_turn`, `dealer_turn`,
    `determine_winner`, then resets the two hands (and only the hands:
    the deck is not recreated).  The `shuffle` call inside
    `deal_initial_hands` uses `thread_rng`; it is modelled by an
    arbitrary function parameter `shuffleF` applied to the deck, so a
    real round is one where `shuffleF` produces a permutation of the
    deck.  The play-again prompt at the end of the Rust `run` is pure
    presentation and is not part of the round model.
  * `determine_winner` prints one of five messages; the messages are
    modelled by the `Outcome` enumeration.
-/

/-- A playing card: rank 1..13 and suit, as in the Rust `Card` struct. -/
structure Card where
  rank : Nat
  suit : String
deriving DecidableEq, Repr

/-- Errors of the model: the fatal empty-deck pop, and exhaustion of the
finite input list that stands in for the unbounded stdin stream. -/
inductive Err where
  | emptyDeck
  | outOfInputs
deriving DecidableEq, Repr

deriving instance DecidableEq for Except

/-- The card vector built by `Deck::new`: all 52 rank-suit
combinations, suit outer loop, rank inner loop (ranks 1 to 13). -/
def Deck.newVec : List Card :=
  (["Hearts", "Diamonds", "Spades", "Clubs"].map (fun suit =>
    (List.range' 1 13).map (fun rank => { rank := rank, suit := suit }))).flatten

/-- A deck is modelled in dealing order: `Vec::pop` removes the END of
the Rust vector, so the model keeps the next card to be dealt at the
HEAD of the list.  `Deck.new` is therefore the reverse of the vector
`Deck::new` builds; dealing pops the head. -/
def Deck.new : List Card := Deck.newVec.reverse

/-- `Deck::deal_card`: `self.cards.pop()`, removing the card at the
deck's dealing end.  `none` models the fatal
`expect("The deck is empty!")` panic. -/
def Deck.deal_card : List Card → Option (Card × List Card)
  | [] => none
  | c :: rest => some (c, rest)

/-- A hand is the `cards` vector of the Rust `Hand` struct. -/
abbrev Hand := List Card

/-- `Hand::add`: push one card at the end of the hand. -/
def Hand.add (hand : Hand) (card : Card) : Hand :=
  hand ++ [card]

/-- The body of the `for card in &self.cards` loop of
`calculate_hand_total`: accumulate the running `(total, ace_count)`
pair, counting each Ace at 11 and each face card at 10. -/
def Hand.countStep (p : Nat × Nat) (card : Card) : Nat × Nat :=
  if card.rank = 1 then (p.1 + 11, p.2 + 1)
  else if 11 ≤ card.rank ∧ card.rank ≤ 13 then (p.1 + 10, p.2)
  else (p.1 + card.rank, p.2)

/-- The `while total > 21 && ace_count > 0 { total -= 10; ace_count -= 1 }`
adjustment loop, structurally recursive on `ace_count`. -/
def Hand.adjustAces (total : Nat) : Nat → Nat
  | 0 => total
  | aceCount + 1 => if 21 < total then Hand.adjustAces (total - 10) aceCount else total

/-- `Hand::calculate_hand_total`: sum with Aces at 11, then downgrade
Aces from 11 to 1 while the total exceeds 21. -/
def Hand.calculate_hand_total (hand : Hand) : Nat :=
  let p := hand.foldl Hand.countStep (0, 0)
  Hand.adjustAces p.1 p.2

/-- The five possible results of `determine_winner` (the Rust function
prints one message per branch; the enumeration names the branches). -/
inductive Outcome where
  | playerBust
  | dealerBust
  | playerWin
  | dealerWin
  | tie
deriving DecidableEq, Repr

/-- `GameController::determine_winner`, branch for branch. -/
def determine_winner (player_hand dealer_hand : Hand) : Outcome :=
  let player_total := player_hand.calculate_hand_total
  let dealer_total := dealer_hand.calculate_hand_total
  if player_total > 21 then .playerBust
  else if dealer_total > 21 then .dealerBust
  else if player_total > dealer_total then .playerWin
  else if player_total < dealer_total then .dealerWin
  else .tie

/-- The outcome as the specification states it: a pure function of the
two final totals, tested in the order player bust, dealer bust, player
higher, dealer higher, tie. -/
def specOutcome (player_total dealer_total : Nat) : Outcome :=
  if player_total > 21 then .playerBust
  else if dealer_total > 21 then .dealerBust
  else if player_total > dealer_total then .playerWin
  else if dealer_total > player_total then .dealerWin
  else .tie

/-- The result of parsing one line of player input. -/
inductive Decision where
  | hit
  | stand
  | invalid
deriving DecidableEq, Repr

/-- Rust `str::trim`: drop whitespace characters from both ends of the
character sequence. -/
def trimChars (cs : List Char) : List Char :=
  ((cs.dropWhile Char.isWhitespace).reverse.dropWhile Char.isWhitespace).reverse

/-- Rust `choice.trim().to_lowercase()`: trim surrounding whitespace,
then lowercase every character. -/
def trim_to_lowercase (s : String) : String :=
  { data := (trimChars s.data).map Char.toLower }

/-- The `match choice.trim().to_lowercase().as_str()` in `player_turn`:
"h" is a hit, "s" is a stand, everything else is invalid. -/
def parse_choice (choice : String) : Decision :=
  match trim_to_lowercase choice with
  | "h" => .hit
  | "s" => .stand
  | _ => .invalid

/-- The state owned by the Rust `GameController`: the deck and the two
hands (the viewer field is presentation only and is not modelled). -/
structure GameController where
  deck : List Card
  player_hand : Hand
  dealer_hand : Hand
deriving DecidableEq, Repr

/-- `GameController::new`: a fresh (unshuffled) deck and two empty hands. -/
def GameController.new : GameController :=
  { deck := Deck.new, player_hand := [], dealer_hand := [] }

/-- `GameController::deal_initial_hands`: shuffle, then deal
player, dealer, player, dealer.  `shuffleF` stands for the effect of
`self.deck.shuffle()` (a permutation drawn from `thread_rng`). -/
def GameController.deal_initial_hands (shuffleF : List Card → List Card)
    (g : GameController) : Except Err GameController :=
  let d0 := shuffleF g.deck
  match Deck.deal_card d0 with
  | none => .error .emptyDeck
  | some (c1, d1) =>
  match Deck.deal_card d1 with
  | none => .error .emptyDeck
  | some (c2, d2) =>
  match Deck.deal_card d2 with
  | none => .error .emptyDeck
  | some (c3, d3) =>
  match Deck.deal_card d3 with
  | none => .error .emptyDeck
  | some (c4, d4) =>
    .ok { deck := d4,
          player_hand := (g.player_hand.add c1).add c3,
          dealer_hand := (g.dealer_hand.add c2).add c4 }

/-- `GameController::player_turn`: the decision loop.  Each iteration
consumes one input line; `"h"` deals one card to the player and breaks
on bust (total over 21), `"s"` breaks, anything else retries the loop
with the state untouched.  The result is the unconsumed inputs, the
remaining deck and the final player hand. -/
def GameController.player_turn (inputs : List String) (deck : List Card)
    (hand : Hand) : Except Err (List String × List Card × Hand) :=
  match inputs with
  | [] => .error .outOfInputs
  | choice :: rest =>
    match parse_choice choice with
    | .hit =>
      match Deck.deal_card deck with
      | none => .error .emptyDeck
      | some (c, deck') =>
        let hand' := hand.add c
        if 21 < hand'.calculate_hand_total then .ok (rest, deck', hand')
        else GameController.player_turn rest deck' hand'
    | .stand => .ok (rest, deck, hand)
    | .invalid => GameController.player_turn rest deck hand

/-- `GameController::dealer_turn`: `while dealer_total < 17` deal one
card to the dealer; stops as soon as the total reaches 17. -/
def GameController.dealer_turn (deck : List Card) (hand : Hand) :
    Except Err (List Card × Hand) :=
  if 17 ≤ hand.calculate_hand_total then .ok (deck, hand)
  else
    match deck with
    | [] => .error .emptyDeck
    | c :: deck' => GameController.dealer_turn deck' (hand.add c)

/-- `GameController::run`, less the play-again prompt: deal the initial
hands, run the player turn, run the dealer turn (unconditionally, as
the Rust code does), determine the winner and reset the two hands.
The deck is NOT reset -- exactly as in the source. -/
def GameController.run (shuffleF : List Card → List Card)
    (inputs : List String) (g : GameController) :
    Except Err (Outcome × GameController) :=
  match g.deal_initial_hands shuffleF with
  | .error e => .error e
  | .ok g1 =>
  match GameController.player_turn inputs g1.deck g1.player_hand with
  | .error e => .error e
  | .ok (_, deck2, phand) =>
  match GameController.dealer_turn deck2 g1.dealer_hand with
  | .error e => .error e
  | .ok (deck3, dhand) =>
    .ok (determine_winner phand dhand,
         { deck := deck3, player_hand := [], dealer_hand := [] })

/-- The driving loop of `main`: play `n` consecutive rounds with the
same controller (as `main` does while the user answers the play-again
prompt with "y"), threading the controller state from round to round. -/
def playRounds (shuffleF : List Card → List Card) (inputs : List String) :
    Nat → GameController → Except Err GameController
  | 0, g => .ok g
  | n + 1, g =>
    match GameController.run shuffleF inputs g with
    | .error e => .error e
    | .ok (_, g') => playRounds shuffleF inputs n g'

/-! ## Scoring: characterization of `calculate_hand_total` -/

/-- The hard (all-Aces-low) value of a card: Ace counts 1, face cards
count 10, the rest count their rank. -/
def lowValue (c : Card) : Nat :=
  if c.rank = 1 then 1 else if 11 ≤ c.rank ∧ c.rank ≤ 13 then 10 else c.rank

/-- The hard total of a hand: every Ace counted as 1. -/
def lowSum (cards : List Card) : Nat := (cards.map lowValue).sum

/-- The number of Aces (rank 1) in a hand. -/
def aceCount (cards : List Card) : Nat := cards.countP (fun c => decide (c.rank = 1))

theorem foldl_countStep (cards : List Card) : ∀ t a : Nat,
    cards.foldl Hand.countStep (t, a) =
      (t + lowSum cards + 10 * aceCount cards, a + aceCount cards) := by
  induction cards with
  | nil => intro t a; simp [lowSum, aceCount]
  | cons c cs ih =>
    intro t a
    simp only [List.foldl_cons]
    by_cases h1 : c.rank = 1
    · simp only [Hand.countStep, h1, if_pos rfl]
      rw [ih]
      simp [lowSum, lowValue, aceCount, List.countP_cons, h1, Prod.mk.injEq]
      omega
    · by_cases h2 : 11 ≤ c.rank ∧ c.rank ≤ 13
      · simp only [Hand.countStep, if_neg h1, if_pos h2]
        rw [ih]
        simp [lowSum, lowValue, aceCount, List.countP_cons, h1, h2, Prod.mk.injEq]
        omega
      · simp only [Hand.countStep, if_neg h1, if_neg h2]
        rw [ih]
        simp [lowSum, lowValue, aceCount, List.countP_cons, h1, h2, Prod.mk.injEq]
        omega

/-- The scoring loop computes the Ace adjustment of the hard sum plus
ten per Ace (each Ace was first counted at 11 = 1 + 10). -/
theorem calculate_hand_total_eq (hand : Hand) :
    hand.calculate_hand_total =
      Hand.adjustAces (lowSum hand + 10 * aceCount hand) (aceCount hand) := by
  unfold Hand.calculate_hand_total
  rw [foldl_countStep]
  simp

theorem adjustAces_ge (k : Nat) : ∀ S : Nat, S ≤ Hand.adjustAces (S + 10 * k) k := by
  induction k with
  | zero => intro S; simp [Hand.adjustAces]
  | succ n ih =>
    intro S
    simp only [Hand.adjustAces]
    by_cases h : 21 < S + 10 * (n + 1)
    · rw [if_pos h]
      have he : S + 10 * (n + 1) - 10 = S + 10 * n := by omega
      rw [he]
      exact ih S
    · rw [if_neg h]; omega

theorem adjustAces_le_or (k : Nat) : ∀ S : Nat,
    Hand.adjustAces (S + 10 * k) k ≤ 21 ∨ Hand.adjustAces (S + 10 * k) k = S := by
  induction k with
  | zero => intro S; right; simp [Hand.adjustAces]
  | succ n ih =>
    intro S
    simp only [Hand.adjustAces]
    by_cases h : 21 < S + 10 * (n + 1)
    · rw [if_pos h]
      have he : S + 10 * (n + 1) - 10 = S + 10 * n := by omega
      rw [he]
      exact ih S
    · rw [if_neg h]; left; omega

/-- When some soft/hard combination fits under 21, the adjustment loop
returns the largest combination value that is at most 21. -/
theorem adjustAces_bestValue (k : Nat) : ∀ S j0 : Nat, j0 ≤ k → S + 10 * j0 ≤ 21 →
    Hand.adjustAces (S + 10 * k) k ≤ 21 ∧
    ∃ j, j ≤ k ∧ Hand.adjustAces (S + 10 * k) k = S + 10 * j ∧
      ∀ j', j' ≤ k → S + 10 * j' ≤ 21 → S + 10 * j' ≤ Hand.adjustAces (S + 10 * k) k := by
  induction k with
  | zero =>
    intro S j0 hj0 hle
    have hz : j0 = 0 := Nat.le_zero.mp hj0
    subst hz
    simp only [Hand.adjustAces]
    refine ⟨by omega, 0, Nat.le_refl 0, by omega, ?_⟩
    intro j' hj' _
    have : j' = 0 := Nat.le_zero.mp hj'
    subst this
    omega
  | succ n ih =>
    intro S j0 hj0 hle
    by_cases h : 21 < S + 10 * (n + 1)
    · have he : S + 10 * (n + 1) - 10 = S + 10 * n := by omega
      have hstep : Hand.adjustAces (S + 10 * (n + 1)) (n + 1) =
          Hand.adjustAces (S + 10 * n) n := by
        simp only [Hand.adjustAces, if_pos h, he]
      have hj0n : j0 ≤ n := by omega
      obtain ⟨hle21, j, hjn, heq, hmax⟩ := ih S j0 hj0n hle
      rw [hstep]
      refine ⟨hle21, j, Nat.le_succ_of_le hjn, heq, ?_⟩
      intro j' hj' hle'
      by_cases hj'n : j' ≤ n
      · exact hmax j' hj'n hle'
      · omega
    · have hstep : Hand.adjustAces (S + 10 * (n + 1)) (n + 1) = S + 10 * (n + 1) := by
        simp only [Hand.adjustAces, if_neg h]
      rw [hstep]
      refine ⟨by omega, n + 1, Nat.le_refl _, rfl, ?_⟩
      intro j' hj' _
      omega

/-- When every soft/hard combination exceeds 21, the adjustment loop
downgrades every Ace and returns the hard sum. -/
theorem adjustAces_allBust (k : Nat) : ∀ S : Nat, (∀ j, j ≤ k → 21 < S + 10 * j) →
    Hand.adjustAces (S + 10 * k) k = S := by
  induction k with
  | zero => intro S _; simp [Hand.adjustAces]
  | succ n ih =>
    intro S h
    have h21 : 21 < S + 10 * (n + 1) := h (n + 1) (Nat.le_refl _)
    simp only [Hand.adjustAces, if_pos h21]
    have he : S + 10 * (n + 1) - 10 = S + 10 * n := by omega
    rw [he]
    exact ih S (fun j hj => h j (Nat.le_succ_of_le hj))

theorem lowSum_le_total (hand : Hand) : lowSum hand ≤ hand.calculate_hand_total := by
  rw [calculate_hand_total_eq]
  exact adjustAces_ge (aceCount hand) (lowSum hand)

theorem total_le_or_lowSum (hand : Hand) :
    hand.calculate_hand_total ≤ 21 ∨ hand.calculate_hand_total = lowSum hand := by
  rw [calculate_hand_total_eq]
  exact adjustAces_le_or (aceCount hand) (lowSum hand)

/-! ## Unfolding lemmas for the loops -/

/-- One step of the dealer loop, as an equation. -/
theorem dealer_turn_step (deck : List Card) (hand : Hand) :
    GameController.dealer_turn deck hand =
      if 17 ≤ hand.calculate_hand_total then .ok (deck, hand)
      else match deck with
        | [] => .error .emptyDeck
        | c :: deck' => GameController.dealer_turn deck' (hand.add c) := by
  rw [GameController.dealer_turn.eq_def]

/-- Whenever the dealer loop returns, the dealer total has reached 17. -/
theorem dealer_turn_final (deck : List Card) : ∀ (hand : Hand) (deck' : List Card)
    (hand' : Hand), GameController.dealer_turn deck hand = .ok (deck', hand') →
    17 ≤ hand'.calculate_hand_total := by
  induction deck with
  | nil =>
    intro hand deck' hand' h
    rw [dealer_turn_step] at h
    by_cases h17 : 17 ≤ hand.calculate_hand_total
    · rw [if_pos h17] at h
      cases h
      exact h17
    · rw [if_neg h17] at h
      simp at h
  | cons c deck ih =>
    intro hand deck' hand' h
    rw [dealer_turn_step] at h
    by_cases h17 : 17 ≤ hand.calculate_hand_total
    · rw [if_pos h17] at h
      cases h
      exact h17
    · rw [if_neg h17] at h
      exact ih _ _ _ h

/-- `parse_choice` as a chain of string comparisons. -/
theorem parse_choice_eq_ite (choice : String) :
    parse_choice choice =
      (if trim_to_lowercase choice = "h" then .hit
       else if trim_to_lowercase choice = "s" then .stand
       else .invalid) := by
  unfold parse_choice
  split
  · rename_i heq
    rw [heq]
    rfl
  · rename_i heq
    rw [heq]
    rfl
  · rename_i h1 h2
    rw [if_neg h1, if_neg h2]

/-! ## Deck-exhaustion bounds

Every card of the real deck contributes at least 1 to the hard total,
so a hand that has not yet ended the round keeps its card count below
its total; this bounds how many cards a round can consume. -/

theorem length_le_lowSum (cards : List Card) (h : ∀ c ∈ cards, 1 ≤ lowValue c) :
    cards.length ≤ lowSum cards := by
  induction cards with
  | nil => simp [lowSum]
  | cons c cs ih =>
    simp only [lowSum, List.map_cons, List.sum_cons, List.length_cons]
    have h1 := h c (List.mem_cons_self c cs)
    have h2 := ih (fun x hx => h x (List.mem_cons_of_mem _ hx))
    simp only [lowSum] at h2
    omega

theorem Deck.new_length : Deck.new.length = 52 := by decide

theorem Deck.new_lowValue : ∀ c ∈ Deck.new, 1 ≤ lowValue c ∧ lowValue c ≤ 10 := by
  decide

/-- Master lemma on the player loop: starting from a non-busted hand,
with every available card worth at least 1 and at least 22 cards
between deck and hand, the loop can never pop an empty deck; and on a
normal exit the cards are conserved, the deck keeps its card bound and
the final hand holds at most 22 cards (at most 21 before the busting
hit, plus the hit itself). -/
theorem player_turn_bound : ∀ (inputs : List String) (deck : List Card) (hand : Hand),
    (∀ c ∈ deck, 1 ≤ lowValue c) → (∀ c ∈ hand, 1 ≤ lowValue c) →
    Hand.calculate_hand_total hand ≤ 21 →
    22 ≤ deck.length + hand.length →
    GameController.player_turn inputs deck hand ≠ .error .emptyDeck ∧
    ∀ rest deck' hand',
      GameController.player_turn inputs deck hand = .ok (rest, deck', hand') →
        deck'.length + hand'.length = deck.length + hand.length ∧
        (∀ c ∈ deck', 1 ≤ lowValue c) ∧ hand'.length ≤ 22 := by
  intro inputs
  induction inputs with
  | nil =>
    intro deck hand _ _ _ _
    refine ⟨by simp [GameController.player_turn], ?_⟩
    intro rest deck' hand' h
    simp [GameController.player_turn] at h
  | cons choice rest0 ih =>
    intro deck hand hvdeck hvhand htot hlen
    have hhand21 : hand.length ≤ 21 := by
      have h1 := length_le_lowSum hand hvhand
      have h2 := lowSum_le_total hand
      omega
    cases hp : parse_choice choice with
    | invalid =>
      have hstep : GameController.player_turn (choice :: rest0) deck hand =
          GameController.player_turn rest0 deck hand := by
        simp only [GameController.player_turn, hp]
      rw [hstep]
      exact ih deck hand hvdeck hvhand htot hlen
    | stand =>
      have hstep : GameController.player_turn (choice :: rest0) deck hand =
          .ok (rest0, deck, hand) := by
        simp only [GameController.player_turn, hp]
      rw [hstep]
      refine ⟨by simp, ?_⟩
      intro rest deck' hand' h
      injection h with h
      injection h with h1 h
      injection h with h2 h3
      subst h2
      subst h3
      exact ⟨rfl, hvdeck, by omega⟩
    | hit =>
      cases deck with
      | nil => simp only [List.length_nil] at hlen; omega
      | cons c dtail =>
        have hstep : GameController.player_turn (choice :: rest0) (c :: dtail) hand =
            (if 21 < Hand.calculate_hand_total (hand.add c)
             then .ok (rest0, dtail, hand.add c)
             else GameController.player_turn rest0 dtail (hand.add c)) := by
          simp only [GameController.player_turn, hp, Deck.deal_card]
        have hvdtail : ∀ x ∈ dtail, 1 ≤ lowValue x :=
          fun x hx => hvdeck x (List.mem_cons_of_mem _ hx)
        have hvhand' : ∀ x ∈ hand.add c, 1 ≤ lowValue x := by
          intro x hx
          simp only [Hand.add, List.mem_append, List.mem_singleton] at hx
          cases hx with
          | inl hmem => exact hvhand x hmem
          | inr hc => exact hc ▸ hvdeck c (List.mem_cons_self c dtail)
        have hlenadd : (hand.add c).length = hand.length + 1 := by
          simp [Hand.add]
        rw [hstep]
        by_cases hbust : 21 < Hand.calculate_hand_total (hand.add c)
        · rw [if_pos hbust]
          refine ⟨by simp, ?_⟩
          intro rest deck' hand' h
          injection h with h
          injection h with h1 h
          injection h with h2 h3
          subst h2
          subst h3
          simp only [List.length_cons] at *
          exact ⟨by omega, hvdtail, by omega⟩
        · rw [if_neg hbust]
          have := ih dtail (hand.add c) hvdtail hvhand' (by omega)
            (by simp only [List.length_cons] at hlen; omega)
          obtain ⟨hne, hok⟩ := this
          refine ⟨hne, ?_⟩
          intro rest deck' hand' h
          obtain ⟨hsum, hv, hl⟩ := hok rest deck' hand' h
          simp only [List.length_cons]
          exact ⟨by omega, hv, hl⟩

/-- The dealer loop can never pop an empty deck when at least 17 cards
are available between deck and dealer hand and every card is worth at
least 1 (a drawing dealer holds at most 16 cards). -/
theorem dealer_turn_no_empty : ∀ (deck : List Card) (hand : Hand),
    (∀ c ∈ deck, 1 ≤ lowValue c) → (∀ c ∈ hand, 1 ≤ lowValue c) →
    17 ≤ deck.length + hand.length →
    GameController.dealer_turn deck hand ≠ .error .emptyDeck := by
  intro deck
  induction deck with
  | nil =>
    intro hand _ hvhand hlen
    rw [dealer_turn_step]
    by_cases h17 : 17 ≤ hand.calculate_hand_total
    · rw [if_pos h17]
      simp
    · exfalso
      have h1 := length_le_lowSum hand hvhand
      have h2 := lowSum_le_total hand
      simp only [List.length_nil] at hlen
      omega
  | cons c dtail ih =>
    intro hand hvdeck hvhand hlen
    rw [dealer_turn_step]
    by_cases h17 : 17 ≤ hand.calculate_hand_total
    · rw [if_pos h17]
      simp
    · rw [if_neg h17]
      have hvdtail : ∀ x ∈ dtail, 1 ≤ lowValue x :=
        fun x hx => hvdeck x (List.mem_cons_of_mem _ hx)
      have hvhand' : ∀ x ∈ hand.add c, 1 ≤ lowValue x := by
        intro x hx
        simp only [Hand.add, List.mem_append, List.mem_singleton] at hx
        cases hx with
        | inl hmem => exact hvhand x hmem
        | inr hc => exact hc ▸ hvdeck c (List.mem_cons_self c dtail)
      exact ih (hand.add c) hvdtail hvhand'
        (by simp only [List.length_cons] at hlen ⊢; simp [Hand.add]; omega)

/-- A fresh-deck initial deal always succeeds and produces a state with
48 + 2 + 2 cards, a non-busted player hand, and only genuine deck
cards. -/
theorem deal_initial_hands_ok (shuffleF : List Card → List Card) (g : GameController)
    (hp : g.player_hand = []) (hd : g.dealer_hand = [])
    (hperm : (shuffleF g.deck).Perm Deck.new) :
    ∃ g1, g.deal_initial_hands shuffleF = .ok g1 ∧
      g1.deck.length = 48 ∧ g1.player_hand.length = 2 ∧ g1.dealer_hand.length = 2 ∧
      Hand.calculate_hand_total g1.player_hand ≤ 21 ∧
      (∀ c ∈ g1.deck, 1 ≤ lowValue c) ∧
      (∀ c ∈ g1.player_hand, 1 ≤ lowValue c) ∧
      (∀ c ∈ g1.dealer_hand, 1 ≤ lowValue c) := by
  have hlen : (shuffleF g.deck).length = 52 := by
    rw [hperm.length_eq, Deck.new_length]
  have hval : ∀ c ∈ shuffleF g.deck, 1 ≤ lowValue c ∧ lowValue c ≤ 10 :=
    fun c hc => Deck.new_lowValue c (hperm.mem_iff.mp hc)
  unfold GameController.deal_initial_hands
  rcases hd0 : shuffleF g.deck with _ | ⟨c1, _ | ⟨c2, _ | ⟨c3, _ | ⟨c4, d4⟩⟩⟩⟩ <;>
    rw [hd0] at hlen <;> simp only [List.length_cons, List.length_nil] at hlen
  · omega
  · omega
  · omega
  · omega
  · rw [hd0] at hval
    simp only [Deck.deal_card]
    refine ⟨_, rfl, ?_, ?_, ?_, ?_, ?_, ?_, ?_⟩
    · simpa using hlen
    · simp [hp, Hand.add]
    · simp [hd, Hand.add]
    · have hv1 := hval c1 (by simp)
      have hv3 := hval c3 (by simp)
      have hor := total_le_or_lowSum ((Hand.add [] c1).add c3)
      have hls : lowSum ((Hand.add [] c1).add c3) = lowValue c1 + lowValue c3 := by
        simp [Hand.add, lowSum]
      dsimp only
      rw [hp]
      omega
    · intro c hc
      dsimp only at hc
      exact (hval c (by simp [List.mem_cons]; tauto)).1
    · intro c hc
      dsimp only at hc
      rw [hp] at hc
      apply (hval c ?_).1
      simp only [Hand.add, List.nil_append, List.mem_append, List.mem_singleton] at hc
      simp only [List.mem_cons]
      tauto
    · intro c hc
      dsimp only at hc
      rw [hd] at hc
      apply (hval c ?_).1
      simp only [Hand.add, List.nil_append, List.mem_append, List.mem_singleton] at hc
      simp only [List.mem_cons]
      tauto

/-- Starting a round from fresh empty hands and a full 52-card shuffled
deck, the round can never hit the fatal empty-deck condition. -/
theorem run_no_empty_deck (shuffleF : List Card → List Card) (inputs : List String)
    (g : GameController) (hp : g.player_hand = []) (hd : g.dealer_hand = [])
    (hperm : (shuffleF g.deck).Perm Deck.new) :
    GameController.run shuffleF inputs g ≠ .error .emptyDeck := by
  obtain ⟨g1, hok, hdk, hpl, hdl, hptot, hvdeck, hvp, hvd⟩ :=
    deal_initial_hands_ok shuffleF g hp hd hperm
  unfold GameController.run
  rw [hok]
  obtain ⟨hpne, hpok⟩ := player_turn_bound inputs g1.deck g1.player_hand hvdeck hvp
    hptot (by omega)
  cases hres : GameController.player_turn inputs g1.deck g1.player_hand with
  | error e =>
    cases e
    · exact absurd hres hpne
    · simp [hres]
  | ok r =>
    obtain ⟨rest, deck2, phand⟩ := r
    obtain ⟨hsum2, hvdeck2, hlen2⟩ := hpok rest deck2 phand hres
    have hdne := dealer_turn_no_empty deck2 g1.dealer_hand hvdeck2 hvd (by omega)
    cases hdres : GameController.dealer_turn deck2 g1.dealer_hand with
    | error e =>
      cases e
      · exact absurd hdres hdne
      · simp [hres, hdres]
    | ok d =>
      simp [hres, hdres]

/-! ## The claims -/

/-- C3.  For every sequence of cards with `k` Aces, the scoring
function returns the largest of the `k + 1` soft/hard combination
values (`lowSum + 10 * j` for `j ≤ k`) that is at most 21 when one
exists, and otherwise the smallest combination (every Ace counted 1,
i.e. `lowSum`); the empty hand totals 0 and a hand without Aces totals
the sum of its base values (face cards counting 10). -/
theorem calculate_hand_total_spec (cards : List Card) :
    ((∃ j, j ≤ aceCount cards ∧ lowSum cards + 10 * j ≤ 21) →
      Hand.calculate_hand_total cards ≤ 21 ∧
      ∃ j, j ≤ aceCount cards ∧
        Hand.calculate_hand_total cards = lowSum cards + 10 * j ∧
        ∀ j', j' ≤ aceCount cards → lowSum cards + 10 * j' ≤ 21 →
          lowSum cards + 10 * j' ≤ Hand.calculate_hand_total cards) ∧
    ((∀ j, j ≤ aceCount cards → 21 < lowSum cards + 10 * j) →
      Hand.calculate_hand_total cards = lowSum cards) ∧
    Hand.calculate_hand_total ([] : Hand) = 0 ∧
    (aceCount cards = 0 → Hand.calculate_hand_total cards = lowSum cards) := by
  refine ⟨?_, ?_, by decide, ?_⟩
  · intro ⟨j0, hj0, hle⟩
    rw [calculate_hand_total_eq]
    exact adjustAces_bestValue (aceCount cards) (lowSum cards) j0 hj0 hle
  · intro h
    rw [calculate_hand_total_eq]
    exact adjustAces_allBust (aceCount cards) (lowSum cards) h
  · intro h
    rw [calculate_hand_total_eq, h]
    simp [Hand.adjustAces]

/-- Witness for C3 on the hand Ace, Ace, 9 (the spec's own example:
one Ace at 11, one at 1, total 21). -/
theorem calculate_hand_total_spec_witness :
    (∃ j, j ≤ aceCount [⟨1, "Hearts"⟩, ⟨1, "Spades"⟩, ⟨9, "Clubs"⟩] ∧
      lowSum [⟨1, "Hearts"⟩, ⟨1, "Spades"⟩, ⟨9, "Clubs"⟩] + 10 * j ≤ 21) ∧
    Hand.calculate_hand_total [⟨1, "Hearts"⟩, ⟨1, "Spades"⟩, ⟨9, "Clubs"⟩] ≤ 21 ∧
    (∃ j, j ≤ aceCount [⟨1, "Hearts"⟩, ⟨1, "Spades"⟩, ⟨9, "Clubs"⟩] ∧
      Hand.calculate_hand_total [⟨1, "Hearts"⟩, ⟨1, "Spades"⟩, ⟨9, "Clubs"⟩] =
        lowSum [⟨1, "Hearts"⟩, ⟨1, "Spades"⟩, ⟨9, "Clubs"⟩] + 10 * j ∧
      ∀ j', j' ≤ aceCount [⟨1, "Hearts"⟩, ⟨1, "Spades"⟩, ⟨9, "Clubs"⟩] →
        lowSum [⟨1, "Hearts"⟩, ⟨1, "Spades"⟩, ⟨9, "Clubs"⟩] + 10 * j' ≤ 21 →
        lowSum [⟨1, "Hearts"⟩, ⟨1, "Spades"⟩, ⟨9, "Clubs"⟩] + 10 * j' ≤
          Hand.calculate_hand_total [⟨1, "Hearts"⟩, ⟨1, "Spades"⟩, ⟨9, "Clubs"⟩]) :=
  ⟨⟨1, by decide, by decide⟩,
   (calculate_hand_total_spec [⟨1, "Hearts"⟩, ⟨1, "Spades"⟩, ⟨9, "Clubs"⟩]).1
     ⟨1, by decide, by decide⟩⟩

/-- C8.  Scoring is invariant under permutation of the card sequence:
it depends only on the multiset of ranks. -/
theorem calculate_hand_total_perm_invariant (p q : Hand) (h : p.Perm q) :
    p.calculate_hand_total = q.calculate_hand_total := by
  rw [calculate_hand_total_eq, calculate_hand_total_eq]
  have hsum : lowSum p = lowSum q := (h.map lowValue).sum_eq
  have hace : aceCount p = aceCount q := h.countP_eq _
  rw [hsum, hace]

/-- Witness for C8: the same three cards in two different orders. -/
theorem calculate_hand_total_perm_invariant_witness :
    Hand.calculate_hand_total [⟨1, "Hearts"⟩, ⟨13, "Spades"⟩, ⟨5, "Clubs"⟩] =
      Hand.calculate_hand_total [⟨13, "Spades"⟩, ⟨5, "Clubs"⟩, ⟨1, "Hearts"⟩] :=
  calculate_hand_total_perm_invariant _ _ (by decide)

/-- C10.  The hand total is not monotone under `Hand::add`: the hand
Ace, 10 totals 21 but adding a 5 downgrades the Ace and the total
drops to 16. -/
theorem total_not_monotone :
    (∃ (hand : Hand) (card : Card),
      Hand.calculate_hand_total (hand.add card) <
        Hand.calculate_hand_total hand) ∧
    Hand.calculate_hand_total [⟨1, "Hearts"⟩, ⟨10, "Spades"⟩] = 21 ∧
    Hand.calculate_hand_total
      (Hand.add [⟨1, "Hearts"⟩, ⟨10, "Spades"⟩] ⟨5, "Clubs"⟩) = 16 :=
  ⟨⟨[⟨1, "Hearts"⟩, ⟨10, "Spades"⟩], ⟨5, "Clubs"⟩, by decide⟩, by decide, by decide⟩

/-- C4.  `determine_winner` is exactly the specification's pure
function of the player total and the dealer total. -/
theorem determine_winner_spec (player_hand dealer_hand : Hand) :
    determine_winner player_hand dealer_hand =
      specOutcome player_hand.calculate_hand_total
        dealer_hand.calculate_hand_total := rfl

/-- C5.  The dealer policy: when the total is already at least 17 the
dealer stands immediately (no card drawn, even past 21); when the total
is below 17 the dealer draws exactly one card and continues; and any
completed dealer turn ends with a total of at least 17. -/
theorem dealer_turn_spec (deck : List Card) (hand : Hand) :
    (∀ deck' hand', GameController.dealer_turn deck hand = .ok (deck', hand') →
      17 ≤ Hand.calculate_hand_total hand') ∧
    (17 ≤ hand.calculate_hand_total →
      GameController.dealer_turn deck hand = .ok (deck, hand)) ∧
    (hand.calculate_hand_total < 17 →
      GameController.dealer_turn deck hand =
        match deck with
        | [] => .error .emptyDeck
        | c :: deck' => GameController.dealer_turn deck' (hand.add c)) := by
  refine ⟨dealer_turn_final deck hand, ?_, ?_⟩
  · intro h
    rw [dealer_turn_step, if_pos h]
  · intro h
    rw [dealer_turn_step, if_neg (by omega)]

/-- Witness for C5: a dealer holding 20 stands even on an empty deck;
a dealer holding 16 draws the next card and finishes at 23. -/
theorem dealer_turn_spec_witness :
    (17 ≤ Hand.calculate_hand_total [⟨10, "Hearts"⟩, ⟨10, "Spades"⟩] ∧
      GameController.dealer_turn [] [⟨10, "Hearts"⟩, ⟨10, "Spades"⟩] =
        .ok ([], [⟨10, "Hearts"⟩, ⟨10, "Spades"⟩])) ∧
    (Hand.calculate_hand_total [⟨10, "Hearts"⟩, ⟨6, "Spades"⟩] < 17 ∧
      GameController.dealer_turn [⟨7, "Clubs"⟩] [⟨10, "Hearts"⟩, ⟨6, "Spades"⟩] =
        GameController.dealer_turn []
          (Hand.add [⟨10, "Hearts"⟩, ⟨6, "Spades"⟩] ⟨7, "Clubs"⟩)) :=
  ⟨⟨by decide,
    (dealer_turn_spec [] [⟨10, "Hearts"⟩, ⟨10, "Spades"⟩]).2.1 (by decide)⟩,
   ⟨by decide,
    (dealer_turn_spec [⟨7, "Clubs"⟩] [⟨10, "Hearts"⟩, ⟨6, "Spades"⟩]).2.2 (by decide)⟩⟩

/-- C6.  An input that normalizes to neither "h" nor "s" makes the
player loop print a message and retry the same decision step with no
side effect: no card dealt, deck and hand unchanged (and the dealer
hand is not in scope of the loop at all). -/
theorem player_turn_invalid_retry (choice : String) (rest : List String)
    (deck : List Card) (hand : Hand)
    (h1 : trim_to_lowercase choice ≠ "h") (h2 : trim_to_lowercase choice ≠ "s") :
    GameController.player_turn (choice :: rest) deck hand =
      GameController.player_turn rest deck hand := by
  have hinv : parse_choice choice = .invalid := by
    rw [parse_choice_eq_ite, if_neg h1, if_neg h2]
  simp only [GameController.player_turn, hinv]

/-- Witness for C6: the input "x" is skipped without touching the
state. -/
theorem player_turn_invalid_retry_witness :
    trim_to_lowercase "x" ≠ "h" ∧ trim_to_lowercase "x" ≠ "s" ∧
    GameController.player_turn ["x", "s"] Deck.new [] =
      GameController.player_turn ["s"] Deck.new [] :=
  ⟨by decide, by decide,
   player_turn_invalid_retry "x" ["s"] Deck.new [] (by decide) (by decide)⟩

/-- C9.  The player-decision parser normalizes by trimming surrounding
whitespace and lowercasing: the result is Hit exactly for normalized
"h", Stand exactly for normalized "s", and invalid otherwise; in
particular "H", " s " and "S" followed by a newline are valid. -/
theorem parse_choice_normalization (choice : String) :
    (parse_choice choice = .hit ↔ trim_to_lowercase choice = "h") ∧
    (parse_choice choice = .stand ↔ trim_to_lowercase choice = "s") ∧
    (parse_choice choice = .invalid ↔
      (trim_to_lowercase choice ≠ "h" ∧ trim_to_lowercase choice ≠ "s")) ∧
    parse_choice "H" = .hit ∧ parse_choice " s " = .stand ∧
    parse_choice "S\n" = .stand := by
  rw [parse_choice_eq_ite]
  by_cases hh : trim_to_lowercase choice = "h"
  · rw [if_pos hh]
    refine ⟨by simp [hh], ?_, ?_, by decide, by decide, by decide⟩
    · constructor
      · intro h
        cases h
      · intro hs
        exact absurd (hh.symm.trans hs) (by decide)
    · constructor
      · intro h
        cases h
      · intro ⟨ha, _⟩
        exact absurd hh ha
  · rw [if_neg hh]
    by_cases hs : trim_to_lowercase choice = "s"
    · rw [if_pos hs]
      refine ⟨?_, by simp [hs], ?_, by decide, by decide, by decide⟩
      · constructor
        · intro h
          cases h
        · intro hh2
          exact absurd hh2 hh
      · constructor
        · intro h
          cases h
        · intro ⟨_, hb⟩
          exact absurd hs hb
    · rw [if_neg hs]
      refine ⟨?_, ?_, by simp [hh, hs], by decide, by decide, by decide⟩
      · constructor
        · intro h
          cases h
        · intro hh2
          exact absurd hh2 hh
      · constructor
        · intro h
          cases h
        · intro hs2
          exact absurd hs2 hs

/-- Witness for C9 at the inputs " s " (a stand) and "x" (invalid). -/
theorem parse_choice_normalization_witness :
    parse_choice " s " = .stand ∧ parse_choice "x" = .invalid :=
  ⟨(parse_choice_normalization " s ").2.1.mpr (by decide),
   (parse_choice_normalization "x").2.2.1.mpr (by decide)⟩

/-- C7.  Dealing from the empty deck is the fatal "empty deck"
condition; a deal from a non-empty deck removes and returns exactly the
one card at the deck's fixed dealing end; and a round started with
fresh empty hands and a shuffled full 52-card deck can never reach the
fatal empty-deck condition (a non-busted hand of genuine cards holds at
most 21 cards, so a round consumes at most 22 + 17 of the 52). -/
theorem deal_card_spec :
    Deck.deal_card ([] : List Card) = none ∧
    (∀ (d : List Card) (c : Card) (d' : List Card),
      Deck.deal_card d = some (c, d') ↔ d = c :: d') ∧
    (∀ (shuffleF : List Card → List Card) (inputs : List String) (g : GameController),
      g.player_hand = [] → g.dealer_hand = [] →
      (shuffleF g.deck).Perm Deck.new →
      GameController.run shuffleF inputs g ≠ .error .emptyDeck) := by
  refine ⟨rfl, ?_, run_no_empty_deck⟩
  intro d c d'
  cases d with
  | nil => simp [Deck.deal_card]
  | cons x xs => simp [Deck.deal_card]

/-- Witness for C7: the standard fresh round (identity shuffle, one
standing player) satisfies the preconditions and never empties the
deck. -/
theorem deal_card_spec_witness :
    GameController.new.player_hand = [] ∧ GameController.new.dealer_hand = [] ∧
    (id GameController.new.deck).Perm Deck.new ∧
    GameController.run id ["s"] GameController.new ≠ .error .emptyDeck :=
  ⟨rfl, rfl, List.Perm.refl _,
   deal_card_spec.2.2 id ["s"] GameController.new rfl rfl (List.Perm.refl _)⟩

/-- Counterexample to C1.  In the round played with the reversed fresh
deck and inputs hit, hit, hit, the player draws Ace, 3, then 5, 6, 7
and busts at 22, yet the dealer turn still runs afterwards: the dealer
hand grows from its initial 2 cards to 4 before `determine_winner` is
reached (the resolved outcome is nonetheless PlayerBust). -/
theorem dealer_acts_after_player_bust :
    (List.reverse Deck.new).Perm Deck.new ∧
    ((GameController.new.deal_initial_hands List.reverse).bind (fun g1 =>
      (GameController.player_turn ["h", "h", "h"] g1.deck g1.player_hand).bind (fun r =>
        (GameController.dealer_turn r.2.1 g1.dealer_hand).map (fun d =>
          (Hand.calculate_hand_total r.2.2, d.2.length))))) = .ok (22, 4) ∧
    (GameController.run List.reverse ["h", "h", "h"] GameController.new).map Prod.fst =
      .ok Outcome.playerBust :=
  ⟨List.reverse_perm Deck.new, by decide, by decide⟩

/-- C1 amended: when the player busts, the round still resolves with
outcome PlayerBust — `determine_winner` tests the player total first,
so nothing the dealer draws can change the outcome — but the dealer
turn runs unconditionally and may extend the dealer hand beyond its
initial 2 cards before the outcome is determined. -/
theorem player_bust_resolves_playerBust (shuffleF : List Card → List Card)
    (inputs : List String) (g g1 : GameController) (rest : List String)
    (deck2 : List Card) (phand : Hand) (deck3 : List Card) (dhand : Hand)
    (h1 : g.deal_initial_hands shuffleF = .ok g1)
    (h2 : GameController.player_turn inputs g1.deck g1.player_hand =
      .ok (rest, deck2, phand))
    (h3 : GameController.dealer_turn deck2 g1.dealer_hand = .ok (deck3, dhand))
    (hbust : 21 < phand.calculate_hand_total) :
    GameController.run shuffleF inputs g =
      .ok (.playerBust, { deck := deck3, player_hand := [], dealer_hand := [] }) := by
  have hdw : determine_winner phand dhand = .playerBust := by
    simp only [determine_winner]
    rw [if_pos hbust]
  simp only [GameController.run, h1, h2, h3, hdw]

/-- Witness for the amended C1, on the concrete busting round of the
counterexample. -/
theorem player_bust_resolves_playerBust_witness :
    GameController.run List.reverse ["h", "h", "h"] GameController.new =
      .ok (.playerBust,
        { deck := Deck.newVec.drop 9, player_hand := [], dealer_hand := [] }) :=
  player_bust_resolves_playerBust List.reverse ["h", "h", "h"] GameController.new
    { deck := Deck.newVec.drop 4,
      player_hand := [⟨1, "Hearts"⟩, ⟨3, "Hearts"⟩],
      dealer_hand := [⟨2, "Hearts"⟩, ⟨4, "Hearts"⟩] }
    [] (Deck.newVec.drop 7)
    [⟨1, "Hearts"⟩, ⟨3, "Hearts"⟩, ⟨5, "Hearts"⟩, ⟨6, "Hearts"⟩, ⟨7, "Hearts"⟩]
    (Deck.newVec.drop 9)
    [⟨2, "Hearts"⟩, ⟨4, "Hearts"⟩, ⟨8, "Hearts"⟩, ⟨9, "Hearts"⟩]
    (by decide) (by decide) (by decide) (by decide)

/-- C2 fails on the code (and the code, not the claim, is at fault):
`run` resets only the two hands at round end; the deck is created once
per controller and persists, shrinking every round.  After one
stand-only round the next round starts with 48 cards, not 52, and with
the identity shuffle and an always-standing player the tenth
consecutive round pops the empty deck — the fatal condition both the
code and the specification treat as unreachable. -/
theorem deck_not_reset_between_rounds :
    GameController.new.deck.length = 52 ∧
    (GameController.run id ["s"] GameController.new).map
      (fun p => (p.1, p.2.deck.length, p.2.player_hand, p.2.dealer_hand)) =
      .ok (Outcome.tie, 48, [], []) ∧
    (playRounds id ["s"] 9 GameController.new).map (fun g => g.deck.length) =
      .ok 7 ∧
    playRounds id ["s"] 10 GameController.new = .error .emptyDeck :=
  ⟨by decide, by decide, by decide, by decide⟩
